import Mathlib

/-!
Shallow embedding of the real-time collaboration backend
(`main.py`: `ConnectionManager` and `websocket_endpoint`).

WebSocket connections are modelled as natural numbers (Python compares
them by identity).  The three dictionaries of `ConnectionManager`
(`active_connections`, `user_ids`, `last_db_write`) are modelled as
association lists; Python `set` membership iteration is modelled as a
list kept duplicate-free by the add-if-absent discipline of `set.add`.
Wall-clock time (`time.time()`) is modelled as a rational number in
seconds; the write-coalescing threshold is the literal `0.5` of the
source.  Calls into `database.py` and outbound socket traffic are
recorded as an explicit effect trace.  Send failures inside
`broadcast` are modelled by a failure oracle `fails : WS → Bool`
saying which connections raise on `send_text`.
-/

namespace CodeCollab

/-- WebSocket connections, compared by identity like Python objects. -/
abbrev WS := Nat

/-- Association-list lookup, modelling Python `dict` access. -/
def alookup {α β : Type} [DecidableEq α] : List (α × β) → α → Option β
  | [], _ => none
  | (k, v) :: rest, a => if k = a then some v else alookup rest a

/-- Association-list update, modelling Python `dict` assignment. -/
def aset {α β : Type} [DecidableEq α] : List (α × β) → α → β → List (α × β)
  | [], a, b => [(a, b)]
  | (k, v) :: rest, a, b =>
    if k = a then (a, b) :: rest else (k, v) :: aset rest a b

/-- Association-list key removal, modelling Python `del` / `dict.pop`. -/
def akeyremove {α β : Type} [DecidableEq α] (l : List (α × β)) (a : α) :
    List (α × β) :=
  l.filter (fun p => ! decide (p.1 = a))

/-- Outbound protocol messages (`json.dumps` payloads of `main.py`). -/
inductive Message where
  | init (space_id user_id code language : String) (active_users : Nat)
  | user_join (user_id : String) (active_users : Nat)
  | user_leave (user_id : String) (active_users : Nat)
  | code_change (code user_id : String)
  | language_change (language user_id : String)
  | cursor_move (user_id cursor_position : String)
deriving DecidableEq

/-- Observable effects: durable-store calls from `database.py`, socket
sends, and websocket closes. -/
inductive Effect where
  | update_space_code (space_id code : String)
  | update_space_language (space_id language : String)
  | add_user_to_space (space_id user_id : String)
  | remove_user_from_space (space_id user_id : String)
  | send (ws : WS) (msg : Message)
  | close (ws : WS) (code : Nat)
deriving DecidableEq

/-- One decoded inbound JSON object, as read by `message.get(...)` in
the websocket loop.  Absent keys are `none`. -/
structure Inbound where
  msg_type : Option String
  code : Option String
  language : Option String
  cursor_position : Option String
deriving DecidableEq

/-- The durable record returned by `get_space`, as used by the
websocket endpoint (`space["code"]`, `space["language"]`). -/
structure Space where
  code : String
  language : String
deriving DecidableEq

/-- State of the `ConnectionManager` singleton of `main.py`. -/
structure ManagerState where
  active_connections : List (String × List WS)
  user_ids : List (WS × String)
  last_db_write : List (String × ℚ)
deriving DecidableEq

/-- The freshly constructed `ConnectionManager()`. -/
def initialState : ManagerState := ⟨[], [], []⟩

/-- Member set of a space: `self.active_connections[space_id]`, empty
when the key is absent. -/
def members (st : ManagerState) (sid : String) : List WS :=
  (alookup st.active_connections sid).getD []

/-- Source translation of `ConnectionManager.get_active_users`. -/
def get_active_users (st : ManagerState) (sid : String) : Nat :=
  match alookup st.active_connections sid with
  | none => 0
  | some conns => conns.length

/-- Source translation of `ConnectionManager.connect`: create the
member set if absent, add the websocket, record its user id, and call
`add_user_to_space`. -/
def connect (st : ManagerState) (ws : WS) (sid uid : String) :
    ManagerState × List Effect :=
  let conns := (alookup st.active_connections sid).getD []
  let conns' := if ws ∈ conns then conns else conns ++ [ws]
  ({ active_connections := aset st.active_connections sid conns',
     user_ids := aset st.user_ids ws uid,
     last_db_write := st.last_db_write },
   [Effect.add_user_to_space sid uid])

/-- Source translation of `ConnectionManager.disconnect`: discard the
websocket from the member set (dropping the set when it becomes
empty), pop its user id, and call `remove_user_from_space` only when a
user id was present. -/
def disconnect (st : ManagerState) (ws : WS) (sid : String) :
    ManagerState × List Effect :=
  let ac :=
    match alookup st.active_connections sid with
    | none => st.active_connections
    | some conns =>
      let conns' := conns.filter (fun c => ! decide (c = ws))
      if conns'.isEmpty then akeyremove st.active_connections sid
      else aset st.active_connections sid conns'
  match alookup st.user_ids ws with
  | some uid =>
    ({ active_connections := ac,
       user_ids := akeyremove st.user_ids ws,
       last_db_write := st.last_db_write },
     [Effect.remove_user_from_space sid uid])
  | none =>
    ({ active_connections := ac,
       user_ids := st.user_ids,
       last_db_write := st.last_db_write },
     [])

/-- The dead-connection cleanup loop at the end of
`ConnectionManager.broadcast`: disconnect each dead connection in
turn, accumulating effects. -/
def cleanup_dead (st : ManagerState) (sid : String) :
    List WS → ManagerState × List Effect
  | [] => (st, [])
  | c :: rest =>
    let d := disconnect st c sid
    let r := cleanup_dead d.1 sid rest
    (r.1, d.2 ++ r.2)

/-- Source translation of `ConnectionManager.broadcast`: iterate the
member set, skip `exclude`, attempt each send (a raising send marks
the connection dead and delivery continues), then disconnect the dead
connections after the iteration. -/
def broadcast (st : ManagerState) (fails : WS → Bool) (sid : String)
    (msg : Message) (exclude : Option WS) : ManagerState × List Effect :=
  match alookup st.active_connections sid with
  | none => (st, [])
  | some conns =>
    let recipients := conns.filter (fun c => ! decide (some c = exclude))
    let delivered := recipients.filter (fun c => ! fails c)
    let dead := recipients.filter (fun c => fails c)
    let cleaned := cleanup_dead st sid dead
    (cleaned.1, delivered.map (fun c => Effect.send c msg) ++ cleaned.2)

/-- One iteration of the websocket receive loop in
`websocket_endpoint`: dispatch on `message.get("type")`.  A
`code_change` performs the throttled durable write then broadcasts; a
`language_change` performs the durable write unconditionally then
broadcasts; a `cursor_move` only broadcasts; any other type is a
no-op. -/
def handle_message (st : ManagerState) (fails : WS → Bool) (sid : String)
    (ws : WS) (uid : String) (now : ℚ) (msg : Inbound) :
    ManagerState × List Effect :=
  if msg.msg_type = some "code_change" then
    let new_code := msg.code.getD ""
    let last := (alookup st.last_db_write sid).getD 0
    let write : ManagerState × List Effect :=
      if (0.5 : ℚ) ≤ now - last then
        ({ active_connections := st.active_connections,
           user_ids := st.user_ids,
           last_db_write := aset st.last_db_write sid now },
         [Effect.update_space_code sid new_code])
      else (st, [])
    let b := broadcast write.1 fails sid
      (Message.code_change new_code uid) (some ws)
    (b.1, write.2 ++ b.2)
  else if msg.msg_type = some "language_change" then
    let new_language := msg.language.getD "python"
    let b := broadcast st fails sid
      (Message.language_change new_language uid) (some ws)
    (b.1, Effect.update_space_language sid new_language :: b.2)
  else if msg.msg_type = some "cursor_move" then
    broadcast st fails sid
      (Message.cursor_move uid (msg.cursor_position.getD "\x7b\x7d")) (some ws)
  else (st, [])

/-- The admission phase of `websocket_endpoint`: when `get_space`
returned nothing, close with code 4004 and stop; otherwise `connect`,
send the `init` snapshot to the joiner, and broadcast `user_join` to
the others. -/
def websocket_join (st : ManagerState) (fails : WS → Bool)
    (space : Option Space) (sid : String) (ws : WS) (uid : String) :
    ManagerState × List Effect :=
  match space with
  | none => (st, [Effect.close ws 4004])
  | some sp =>
    let c := connect st ws sid uid
    let n := get_active_users c.1 sid
    let b := broadcast c.1 fails sid (Message.user_join uid n) (some ws)
    (b.1, c.2 ++ [Effect.send ws (Message.init sid uid sp.code sp.language n)]
      ++ b.2)

/-- The `except WebSocketDisconnect` handler of `websocket_endpoint`:
disconnect, then broadcast `user_leave` (no exclusion) with the
refreshed active-user count. -/
def handle_ws_disconnect (st : ManagerState) (fails : WS → Bool)
    (sid : String) (ws : WS) (uid : String) : ManagerState × List Effect :=
  let d := disconnect st ws sid
  let b := broadcast d.1 fails sid
    (Message.user_leave uid (get_active_users d.1 sid)) none
  (b.1, d.2 ++ b.2)

/-- The generic `except Exception` handler of `websocket_endpoint`:
disconnect only, with no broadcast. -/
def handle_ws_error (st : ManagerState) (sid : String) (ws : WS) :
    ManagerState × List Effect :=
  disconnect st ws sid

/-- Process a timed sequence of inbound messages from one active
connection through the receive loop, accumulating effects. -/
def run_messages (st : ManagerState) (fails : WS → Bool) (sid : String)
    (ws : WS) (uid : String) : List (ℚ × Inbound) → ManagerState × List Effect
  | [] => (st, [])
  | (t, m) :: rest =>
    let r := handle_message st fails sid ws uid t m
    let r' := run_messages r.1 fails sid ws uid rest
    (r'.1, r.2 ++ r'.2)

/-- Effect classifier: socket sends. -/
def isSendEff : Effect → Bool
  | Effect.send _ _ => true
  | _ => false

/-- Effect classifier: `remove_user_from_space` calls. -/
def isRemoveEff : Effect → Bool
  | Effect.remove_user_from_space _ _ => true
  | _ => false

/-- Effect classifier: any durable-store call. -/
def isDbEff : Effect → Bool
  | Effect.update_space_code _ _ => true
  | Effect.update_space_language _ _ => true
  | Effect.add_user_to_space _ _ => true
  | Effect.remove_user_from_space _ _ => true
  | _ => false

/-- Effect classifier: sends of an `init` message. -/
def isInitSendEff : Effect → Bool
  | Effect.send _ (Message.init _ _ _ _ _) => true
  | _ => false

/-- Count of durable `update_space_code` writes in a trace. -/
def countWrites (es : List Effect) : Nat :=
  es.countP (fun e => match e with
    | Effect.update_space_code _ _ => true
    | _ => false)

/-- Count of messages delivered to one connection in a trace. -/
def sendsTo (es : List Effect) (c : WS) : Nat :=
  es.countP (fun e => match e with
    | Effect.send c' _ => decide (c' = c)
    | _ => false)

/-- Manager states reachable through the entry points of
`websocket_endpoint` from the freshly constructed manager. -/
inductive Reachable : ManagerState → Prop where
  | base : Reachable initialState
  | joined (st : ManagerState) (fails : WS → Bool) (space : Option Space)
      (sid : String) (ws : WS) (uid : String) : Reachable st →
      Reachable (websocket_join st fails space sid ws uid).1
  | message (st : ManagerState) (fails : WS → Bool) (sid : String) (ws : WS)
      (uid : String) (now : ℚ) (msg : Inbound) : Reachable st →
      Reachable (handle_message st fails sid ws uid now msg).1
  | ws_disconnect (st : ManagerState) (fails : WS → Bool) (sid : String)
      (ws : WS) (uid : String) : Reachable st →
      Reachable (handle_ws_disconnect st fails sid ws uid).1
  | ws_error (st : ManagerState) (sid : String) (ws : WS) : Reachable st →
      Reachable (handle_ws_error st sid ws).1

end CodeCollab

namespace CodeCollab

/-! Association-list lemmas. -/

theorem alookup_aset_self {α β : Type} [DecidableEq α]
    (l : List (α × β)) (k : α) (v : β) : alookup (aset l k v) k = some v := by
  induction l with
  | nil => simp [aset, alookup]
  | cons p rest ih =>
    obtain ⟨k', v'⟩ := p
    by_cases h : k' = k
    · subst h
      simp [aset, alookup]
    · simp [aset, alookup, h, ih]

theorem alookup_aset_of_ne {α β : Type} [DecidableEq α]
    (l : List (α × β)) (k k' : α) (v : β) (h : k' ≠ k) :
    alookup (aset l k v) k' = alookup l k' := by
  induction l with
  | nil =>
    have : ¬ k = k' := fun hh => h hh.symm
    simp [aset, alookup, this]
  | cons p rest ih =>
    obtain ⟨a, b⟩ := p
    by_cases ha : a = k
    · subst ha
      have : ¬ a = k' := fun hh => h hh.symm
      simp [aset, alookup, this]
    · by_cases ha' : a = k'
      · subst ha'
        simp [aset, alookup, ha]
      · simp [aset, alookup, ha, ha', ih]

theorem alookup_akeyremove_self {α β : Type} [DecidableEq α]
    (l : List (α × β)) (k : α) : alookup (akeyremove l k) k = none := by
  induction l with
  | nil => simp [akeyremove, alookup]
  | cons p rest ih =>
    obtain ⟨a, b⟩ := p
    by_cases ha : a = k
    · subst ha
      simpa [akeyremove, alookup] using ih
    · simpa [akeyremove, alookup, ha] using ih

theorem alookup_akeyremove_of_ne {α β : Type} [DecidableEq α]
    (l : List (α × β)) (k k' : α) (h : k' ≠ k) :
    alookup (akeyremove l k) k' = alookup l k' := by
  induction l with
  | nil => simp [akeyremove, alookup]
  | cons p rest ih =>
    obtain ⟨a, b⟩ := p
    by_cases ha : a = k
    · subst ha
      have : ¬ a = k' := fun hh => h hh.symm
      simpa [akeyremove, alookup, this] using ih
    · by_cases ha' : a = k'
      · subst ha'
        simp [akeyremove, alookup, ha]
      · simpa [akeyremove, alookup, ha, ha'] using ih

theorem aset_eq_of_alookup {α β : Type} [DecidableEq α]
    (l : List (α × β)) (k : α) (v : β) (h : alookup l k = some v) :
    aset l k v = l := by
  induction l with
  | nil => simp [alookup] at h
  | cons p rest ih =>
    obtain ⟨a, b⟩ := p
    by_cases ha : a = k
    · subst ha
      simp [alookup] at h
      simp [aset, h]
    · simp [alookup, ha] at h
      simp [aset, ha, ih h]

theorem akeyremove_eq_of_alookup_none {α β : Type} [DecidableEq α]
    (l : List (α × β)) (k : α) (h : alookup l k = none) :
    akeyremove l k = l := by
  induction l with
  | nil => simp [akeyremove]
  | cons p rest ih =>
    obtain ⟨a, b⟩ := p
    by_cases ha : a = k
    · subst ha
      simp [alookup] at h
    · simp [alookup, ha] at h
      have ihh := ih h
      simp [akeyremove, List.filter_cons, ha] at ihh ⊢
      exact ihh

end CodeCollab

namespace CodeCollab

/-! Structural lemmas about `disconnect`. -/

theorem disconnect_last_db_write (st : ManagerState) (ws : WS) (sid : String) :
    (disconnect st ws sid).1.last_db_write = st.last_db_write := by
  unfold disconnect
  cases alookup st.user_ids ws <;> rfl

theorem disconnect_effects (st : ManagerState) (ws : WS) (sid : String) :
    ∀ e ∈ (disconnect st ws sid).2, ∃ u, e = Effect.remove_user_from_space sid u := by
  unfold disconnect
  cases h : alookup st.user_ids ws with
  | none => simp
  | some uid => simp

theorem disconnect_effects_no_send (st : ManagerState) (ws : WS) (sid : String) :
    ∀ e ∈ (disconnect st ws sid).2, isSendEff e = false := by
  intro e he
  obtain ⟨u, rfl⟩ := disconnect_effects st ws sid e he
  rfl

theorem disconnect_active_connections (st : ManagerState) (ws : WS) (sid : String) :
    (disconnect st ws sid).1.active_connections =
      (match alookup st.active_connections sid with
       | none => st.active_connections
       | some conns =>
         let conns' := conns.filter (fun c => ! decide (c = ws))
         if conns'.isEmpty then akeyremove st.active_connections sid
         else aset st.active_connections sid conns') := by
  unfold disconnect
  cases alookup st.user_ids ws <;> rfl

theorem disconnect_user_ids_self (st : ManagerState) (ws : WS) (sid : String) :
    alookup (disconnect st ws sid).1.user_ids ws = none := by
  unfold disconnect
  cases h : alookup st.user_ids ws with
  | none => simpa using h
  | some uid => simpa using alookup_akeyremove_self st.user_ids ws

theorem disconnect_user_ids_other (st : ManagerState) (ws : WS) (sid : String)
    (c : WS) (hc : c ≠ ws) :
    alookup (disconnect st ws sid).1.user_ids c = alookup st.user_ids c := by
  unfold disconnect
  cases h : alookup st.user_ids ws with
  | none => rfl
  | some uid => simpa using alookup_akeyremove_of_ne st.user_ids ws c hc

theorem members_disconnect_self (st : ManagerState) (ws : WS) (sid : String) :
    members (disconnect st ws sid).1 sid =
      (members st sid).filter (fun c => ! decide (c = ws)) := by
  have hac := disconnect_active_connections st ws sid
  unfold members
  rw [hac]
  cases h : alookup st.active_connections sid with
  | none => simp [h]
  | some conns =>
    simp only [h]
    by_cases he : (conns.filter (fun c => ! decide (c = ws))).isEmpty
    · rw [if_pos he, alookup_akeyremove_self]
      simp [List.isEmpty_iff.mp he]
    · rw [if_neg he, alookup_aset_self]
      simp

theorem members_disconnect_other (st : ManagerState) (ws : WS) (sid s : String)
    (hs : s ≠ sid) :
    members (disconnect st ws sid).1 s = members st s := by
  have hac := disconnect_active_connections st ws sid
  unfold members
  rw [hac]
  cases h : alookup st.active_connections sid with
  | none => simp [h]
  | some conns =>
    simp only [h]
    by_cases he : (conns.filter (fun c => ! decide (c = ws))).isEmpty
    · rw [if_pos he, alookup_akeyremove_of_ne st.active_connections sid s hs]
    · rw [if_neg he, alookup_aset_of_ne st.active_connections sid s _ hs]

theorem members_disconnect_subset (st : ManagerState) (ws : WS) (sid : String)
    (c : WS) (hc : c ∈ members (disconnect st ws sid).1 sid) :
    c ∈ members st sid := by
  rw [members_disconnect_self] at hc
  exact (List.mem_filter.mp hc).1

theorem not_mem_members_disconnect (st : ManagerState) (ws : WS) (sid : String) :
    ws ∉ members (disconnect st ws sid).1 sid := by
  rw [members_disconnect_self]
  intro h
  simpa using (List.mem_filter.mp h).2

end CodeCollab

namespace CodeCollab

/-! Lemmas about the dead-connection cleanup loop. -/

theorem cleanup_dead_last_db_write (sid : String) (dead : List WS) :
    ∀ st : ManagerState,
      (cleanup_dead st sid dead).1.last_db_write = st.last_db_write := by
  induction dead with
  | nil => intro st; rfl
  | cons d rest ih =>
    intro st
    simp only [cleanup_dead]
    rw [ih, disconnect_last_db_write]

theorem cleanup_dead_effects (sid : String) (dead : List WS) :
    ∀ st : ManagerState, ∀ e ∈ (cleanup_dead st sid dead).2,
      ∃ u, e = Effect.remove_user_from_space sid u := by
  induction dead with
  | nil => intro st e he; simp [cleanup_dead] at he
  | cons d rest ih =>
    intro st e he
    simp only [cleanup_dead, List.mem_append] at he
    rcases he with he | he
    · exact disconnect_effects st d sid e he
    · exact ih _ e he

theorem members_cleanup_subset (sid : String) (dead : List WS) :
    ∀ st : ManagerState, ∀ c,
      c ∈ members (cleanup_dead st sid dead).1 sid → c ∈ members st sid := by
  induction dead with
  | nil => intro st c hc; exact hc
  | cons d rest ih =>
    intro st c hc
    exact members_disconnect_subset st d sid c (ih _ c hc)

theorem not_mem_members_cleanup (sid : String) (dead : List WS) :
    ∀ st : ManagerState, ∀ c ∈ dead,
      c ∉ members (cleanup_dead st sid dead).1 sid := by
  induction dead with
  | nil => intro st c hc; simp at hc
  | cons d rest ih =>
    intro st c hc
    by_cases hcd : c = d
    · subst hcd
      intro hmem
      exact not_mem_members_disconnect st c sid (members_cleanup_subset sid rest _ c hmem)
    · have hc' : c ∈ rest := by
        rcases List.mem_cons.mp hc with h | h
        · exact absurd h hcd
        · exact h
      exact ih _ c hc'

theorem disconnect_effects_of_uid (st : ManagerState) (ws : WS) (sid : String)
    (u : String) (h : alookup st.user_ids ws = some u) :
    (disconnect st ws sid).2 = [Effect.remove_user_from_space sid u] := by
  simp [disconnect, h]

theorem cleanup_dead_remove_effect (sid : String) (dead : List WS) :
    ∀ st : ManagerState, ∀ c ∈ dead, ∀ u,
      alookup st.user_ids c = some u →
      Effect.remove_user_from_space sid u ∈ (cleanup_dead st sid dead).2 := by
  induction dead with
  | nil => intro st c hc; simp at hc
  | cons d rest ih =>
    intro st c hc u hu
    by_cases hcd : c = d
    · subst hcd
      simp only [cleanup_dead, List.mem_append]
      left
      rw [disconnect_effects_of_uid st c sid u hu]
      simp
    · have hc' : c ∈ rest := by
        rcases List.mem_cons.mp hc with h | h
        · exact absurd h hcd
        · exact h
      simp only [cleanup_dead, List.mem_append]
      right
      exact ih _ c hc' u (by rw [disconnect_user_ids_other st d sid c hcd]; exact hu)

end CodeCollab

namespace CodeCollab

/-! Lemmas about `broadcast`. -/

theorem broadcast_last_db_write (st : ManagerState) (fails : WS → Bool)
    (sid : String) (msg : Message) (ex : Option WS) :
    (broadcast st fails sid msg ex).1.last_db_write = st.last_db_write := by
  unfold broadcast
  cases alookup st.active_connections sid with
  | none => rfl
  | some conns => simpa using cleanup_dead_last_db_write sid _ st

theorem broadcast_effects_shape (st : ManagerState) (fails : WS → Bool)
    (sid : String) (msg : Message) (ex : Option WS) :
    ∀ e ∈ (broadcast st fails sid msg ex).2,
      (∃ c, some c ≠ ex ∧ fails c = false ∧ e = Effect.send c msg) ∨
      (∃ u, e = Effect.remove_user_from_space sid u) := by
  unfold broadcast
  cases h : alookup st.active_connections sid with
  | none => simp
  | some conns =>
    intro e he
    simp only [List.mem_append] at he
    rcases he with he | he
    · obtain ⟨c, hc, rfl⟩ := List.mem_map.mp he
      obtain ⟨hc1, hc2⟩ := List.mem_filter.mp hc
      obtain ⟨_, hc3⟩ := List.mem_filter.mp hc1
      left
      refine ⟨c, ?_, ?_, rfl⟩
      · intro hcex
        rw [hcex] at hc3
        simp at hc3
      · simpa using hc2
    · right
      obtain ⟨u, rfl⟩ := cleanup_dead_effects sid _ st e he
      exact ⟨u, rfl⟩

theorem broadcast_send_mem (st : ManagerState) (fails : WS → Bool)
    (sid : String) (msg : Message) (ex : Option WS) (m : WS)
    (hm : m ∈ members st sid) (hex : some m ≠ ex) (hf : fails m = false) :
    Effect.send m msg ∈ (broadcast st fails sid msg ex).2 := by
  unfold broadcast
  cases h : alookup st.active_connections sid with
  | none =>
    rw [members, h] at hm
    simp at hm
  | some conns =>
    rw [members, h] at hm
    simp only [Option.getD] at hm
    simp only [List.mem_append]
    left
    refine List.mem_map.mpr ⟨m, ?_, rfl⟩
    refine List.mem_filter.mpr ⟨List.mem_filter.mpr ⟨hm, ?_⟩, ?_⟩
    · simpa using hex
    · simp [hf]

theorem broadcast_send_ne_exclude (st : ManagerState) (fails : WS → Bool)
    (sid : String) (msg : Message) (ex : Option WS) :
    ∀ e ∈ (broadcast st fails sid msg ex).2, ∀ c mm,
      e = Effect.send c mm → some c ≠ ex ∧ mm = msg := by
  intro e he c mm hecm
  rcases broadcast_effects_shape st fails sid msg ex e he with ⟨c', hc', _, hee⟩ | ⟨u, hee⟩
  · rw [hecm] at hee
    cases hee
    exact ⟨hc', rfl⟩
  · rw [hecm] at hee
    cases hee

theorem broadcast_state_no_fail (st : ManagerState) (fails : WS → Bool)
    (sid : String) (msg : Message) (ex : Option WS)
    (hf : ∀ c, fails c = false) :
    (broadcast st fails sid msg ex).1 = st := by
  unfold broadcast
  cases h : alookup st.active_connections sid with
  | none => rfl
  | some conns =>
    have hdead : ((conns.filter (fun c => ! decide (some c = ex))).filter
        (fun c => fails c)) = [] :=
      List.filter_eq_nil_iff.mpr (fun a _ => by simp [hf a])
    simp only [hdead]
    rfl

theorem broadcast_effects_no_fail (st : ManagerState) (fails : WS → Bool)
    (sid : String) (msg : Message) (ex : Option WS)
    (hf : ∀ c, fails c = false) :
    (broadcast st fails sid msg ex).2 =
      ((members st sid).filter (fun c => ! decide (some c = ex))).map
        (fun c => Effect.send c msg) := by
  unfold broadcast
  cases h : alookup st.active_connections sid with
  | none => simp [members, h]
  | some conns =>
    have hdead : ((conns.filter (fun c => ! decide (some c = ex))).filter
        (fun c => fails c)) = [] :=
      List.filter_eq_nil_iff.mpr (fun a _ => by simp [hf a])
    have hdel : ((conns.filter (fun c => ! decide (some c = ex))).filter
        (fun c => ! fails c)) = conns.filter (fun c => ! decide (some c = ex)) :=
      List.filter_eq_self.mpr (fun a _ => by simp [hf a])
    simp only [hdead, hdel, members, h, Option.getD]
    simp [cleanup_dead]

theorem countP_eq_one_of_nodup (l : List WS) (m : WS)
    (hn : l.Nodup) (hm : m ∈ l) :
    l.countP (fun c => decide (c = m)) = 1 := by
  induction l with
  | nil => simp at hm
  | cons a rest ih =>
    rcases List.mem_cons.mp hm with h | h
    · subst h
      have hnot : m ∉ rest := (List.nodup_cons.mp hn).1
      rw [List.countP_cons]
      simp only [decide_eq_true_eq]
      have : rest.countP (fun c => decide (c = m)) = 0 :=
        List.countP_eq_zero.mpr (fun a ha => by
          simp only [decide_eq_true_eq]
          intro hh
          exact hnot (hh ▸ ha))
      simp [this]
    · have hne : a ≠ m := by
        intro hh
        subst hh
        exact (List.nodup_cons.mp hn).1 h
      rw [List.countP_cons]
      simp [hne, ih (List.nodup_cons.mp hn).2 h]

theorem sendsTo_map_send (l : List WS) (msg : Message) (m : WS) :
    sendsTo (l.map (fun c => Effect.send c msg)) m =
      l.countP (fun c => decide (c = m)) := by
  unfold sendsTo
  rw [List.countP_map]
  rfl

theorem sendsTo_broadcast_no_fail (st : ManagerState) (fails : WS → Bool)
    (sid : String) (msg : Message) (m ws : WS)
    (hf : ∀ c, fails c = false) (hn : (members st sid).Nodup)
    (hm : m ∈ members st sid) (hne : m ≠ ws) :
    sendsTo (broadcast st fails sid msg (some ws)).2 m = 1 := by
  rw [broadcast_effects_no_fail st fails sid msg (some ws) hf]
  rw [sendsTo_map_send]
  refine countP_eq_one_of_nodup _ m (hn.filter _) ?_
  exact List.mem_filter.mpr ⟨hm, by simp [hne]⟩

end CodeCollab

namespace CodeCollab

/-- Registry invariant: every member set stored in
`active_connections` is nonempty. -/
def RegistryInv (st : ManagerState) : Prop :=
  ∀ sid conns, alookup st.active_connections sid = some conns → conns ≠ []

theorem registryInv_of_ac_eq (st1 st2 : ManagerState)
    (h : st1.active_connections = st2.active_connections)
    (h2 : RegistryInv st2) : RegistryInv st1 := by
  intro sid conns hlk
  exact h2 sid conns (h ▸ hlk)

theorem registryInv_initial : RegistryInv initialState := by
  intro sid conns hlk
  simp [initialState, alookup] at hlk

theorem registryInv_connect (st : ManagerState) (ws : WS) (sid uid : String)
    (h : RegistryInv st) : RegistryInv (connect st ws sid uid).1 := by
  intro sid' conns' hlk
  simp only [connect] at hlk
  by_cases hs : sid' = sid
  · subst hs
    rw [alookup_aset_self] at hlk
    cases hlk
    by_cases hw : ws ∈ (alookup st.active_connections sid').getD []
    · simp only [if_pos hw]
      exact List.ne_nil_of_mem hw
    · simp only [if_neg hw]
      simp
  · rw [alookup_aset_of_ne _ _ _ _ hs] at hlk
    exact h sid' conns' hlk

theorem registryInv_disconnect (st : ManagerState) (ws : WS) (sid : String)
    (h : RegistryInv st) : RegistryInv (disconnect st ws sid).1 := by
  intro sid' conns' hlk
  rw [disconnect_active_connections] at hlk
  cases hsd : alookup st.active_connections sid with
  | none =>
    rw [hsd] at hlk
    exact h sid' conns' hlk
  | some conns =>
    rw [hsd] at hlk
    simp only at hlk
    by_cases hemp : (conns.filter (fun c => ! decide (c = ws))).isEmpty
    · rw [if_pos hemp] at hlk
      by_cases hs : sid' = sid
      · subst hs
        rw [alookup_akeyremove_self] at hlk
        cases hlk
      · rw [alookup_akeyremove_of_ne _ _ _ hs] at hlk
        exact h sid' conns' hlk
    · rw [if_neg hemp] at hlk
      by_cases hs : sid' = sid
      · subst hs
        rw [alookup_aset_self] at hlk
        cases hlk
        intro hnil
        rw [hnil] at hemp
        simp at hemp
      · rw [alookup_aset_of_ne _ _ _ _ hs] at hlk
        exact h sid' conns' hlk

theorem registryInv_cleanup (sid : String) (dead : List WS) :
    ∀ st : ManagerState, RegistryInv st →
      RegistryInv (cleanup_dead st sid dead).1 := by
  induction dead with
  | nil => intro st h; exact h
  | cons d rest ih =>
    intro st h
    exact ih _ (registryInv_disconnect st d sid h)

theorem registryInv_broadcast (st : ManagerState) (fails : WS → Bool)
    (sid : String) (msg : Message) (ex : Option WS)
    (h : RegistryInv st) : RegistryInv (broadcast st fails sid msg ex).1 := by
  unfold broadcast
  cases hsd : alookup st.active_connections sid with
  | none => exact h
  | some conns => exact registryInv_cleanup sid _ st h

theorem registryInv_handle_message (st : ManagerState) (fails : WS → Bool)
    (sid : String) (ws : WS) (uid : String) (now : ℚ) (msg : Inbound)
    (h : RegistryInv st) :
    RegistryInv (handle_message st fails sid ws uid now msg).1 := by
  rw [handle_message]
  split_ifs with h1 h2 h3
  · by_cases ht : (0.5 : ℚ) ≤ now - (alookup st.last_db_write sid).getD 0
    · simp only [if_pos ht]
      refine registryInv_broadcast _ fails sid _ _ ?_
      exact registryInv_of_ac_eq _ st rfl h
    · simp only [if_neg ht]
      exact registryInv_broadcast _ fails sid _ _ h
  · exact registryInv_broadcast _ fails sid _ _ h
  · exact registryInv_broadcast _ fails sid _ _ h
  · exact h

theorem registryInv_join (st : ManagerState) (fails : WS → Bool)
    (space : Option Space) (sid : String) (ws : WS) (uid : String)
    (h : RegistryInv st) :
    RegistryInv (websocket_join st fails space sid ws uid).1 := by
  cases space with
  | none => exact h
  | some sp =>
    exact registryInv_broadcast _ fails sid _ _ (registryInv_connect st ws sid uid h)

theorem registryInv_handle_ws_disconnect (st : ManagerState)
    (fails : WS → Bool) (sid : String) (ws : WS) (uid : String)
    (h : RegistryInv st) :
    RegistryInv (handle_ws_disconnect st fails sid ws uid).1 :=
  registryInv_broadcast _ fails sid _ _ (registryInv_disconnect st ws sid h)

theorem registryInv_handle_ws_error (st : ManagerState) (sid : String)
    (ws : WS) (h : RegistryInv st) :
    RegistryInv (handle_ws_error st sid ws).1 :=
  registryInv_disconnect st ws sid h

theorem reachable_registryInv (st : ManagerState) (h : Reachable st) :
    RegistryInv st := by
  induction h with
  | base => exact registryInv_initial
  | joined st fails space sid ws uid _ ih => exact registryInv_join st fails space sid ws uid ih
  | message st fails sid ws uid now msg _ ih =>
    exact registryInv_handle_message st fails sid ws uid now msg ih
  | ws_disconnect st fails sid ws uid _ ih =>
    exact registryInv_handle_ws_disconnect st fails sid ws uid ih
  | ws_error st sid ws _ ih => exact registryInv_handle_ws_error st sid ws ih

end CodeCollab

namespace CodeCollab

/-! Lemmas about `connect` and idempotence of `disconnect`. -/

theorem members_connect_self (st : ManagerState) (ws : WS) (sid uid : String) :
    members (connect st ws sid uid).1 sid =
      if ws ∈ members st sid then members st sid else members st sid ++ [ws] := by
  simp only [connect, members]
  rw [alookup_aset_self]
  rfl

theorem members_connect_of_mem (st : ManagerState) (ws : WS) (sid uid : String)
    (m : WS) (hm : m ∈ members st sid) :
    m ∈ members (connect st ws sid uid).1 sid := by
  rw [members_connect_self]
  by_cases hw : ws ∈ members st sid
  · simpa [hw] using hm
  · simp only [if_neg hw, List.mem_append]
    exact Or.inl hm

theorem get_active_users_eq_length (st : ManagerState) (sid : String)
    (conns : List WS) (h : alookup st.active_connections sid = some conns) :
    get_active_users st sid = conns.length := by
  simp [get_active_users, h]

theorem get_active_users_connect_fresh (st : ManagerState) (ws : WS)
    (sid uid : String) (hws : ws ∉ members st sid) :
    get_active_users (connect st ws sid uid).1 sid =
      (members st sid).length + 1 := by
  have h : alookup (connect st ws sid uid).1.active_connections sid =
      some (members st sid ++ [ws]) := by
    have hws' : ws ∉ (alookup st.active_connections sid).getD [] := hws
    simp only [connect]
    rw [alookup_aset_self]
    simp [members, if_neg hws']
  rw [get_active_users_eq_length _ _ _ h]
  simp

theorem disconnect_ac_cases (st : ManagerState) (ws : WS) (sid : String) :
    alookup (disconnect st ws sid).1.active_connections sid = none ∨
    ∃ conns', alookup (disconnect st ws sid).1.active_connections sid = some conns' ∧
      ws ∉ conns' ∧ conns' ≠ [] := by
  rw [disconnect_active_connections]
  cases h : alookup st.active_connections sid with
  | none => left; simp [h]
  | some conns =>
    simp only
    by_cases hemp : (conns.filter (fun c => ! decide (c = ws))).isEmpty
    · left
      rw [if_pos hemp]
      exact alookup_akeyremove_self st.active_connections sid
    · right
      refine ⟨conns.filter (fun c => ! decide (c = ws)), ?_, ?_, ?_⟩
      · rw [if_neg hemp]
        exact alookup_aset_self st.active_connections sid _
      · intro hmem
        simpa using (List.mem_filter.mp hmem).2
      · intro hnil
        rw [hnil] at hemp
        simp at hemp

theorem disconnect_no_op (st : ManagerState) (ws : WS) (sid : String)
    (hui : alookup st.user_ids ws = none)
    (hac : alookup st.active_connections sid = none ∨
      ∃ conns', alookup st.active_connections sid = some conns' ∧
        ws ∉ conns' ∧ conns' ≠ []) :
    disconnect st ws sid = (st, []) := by
  unfold disconnect
  rw [hui]
  rcases hac with hn | ⟨conns', hlk, hws, hne⟩
  · rw [hn]
  · rw [hlk]
    simp only
    have hfilter : conns'.filter (fun c => ! decide (c = ws)) = conns' :=
      List.filter_eq_self.mpr (fun a ha => by
        simp only [Bool.not_eq_true']
        exact decide_eq_false (fun hh => hws (hh ▸ ha)))
    rw [hfilter]
    have hemp : conns'.isEmpty = false := by
      cases conns' with
      | nil => exact absurd rfl hne
      | cons a l => rfl
    rw [hemp]
    simp only [Bool.false_eq_true, if_false]
    rw [aset_eq_of_alookup st.active_connections sid conns' hlk]

theorem disconnect_idem (st : ManagerState) (ws : WS) (sid : String) :
    disconnect (disconnect st ws sid).1 ws sid = ((disconnect st ws sid).1, []) :=
  disconnect_no_op (disconnect st ws sid).1 ws sid
    (disconnect_user_ids_self st ws sid) (disconnect_ac_cases st ws sid)

theorem disconnect_remove_count (st : ManagerState) (ws : WS) (sid : String) :
    (disconnect st ws sid).2.countP isRemoveEff ≤ 1 := by
  unfold disconnect
  cases alookup st.user_ids ws <;> simp [isRemoveEff]

theorem disconnect_send_count (st : ManagerState) (ws : WS) (sid : String) :
    (disconnect st ws sid).2.countP isSendEff = 0 := by
  unfold disconnect
  cases alookup st.user_ids ws <;> simp [isSendEff]

end CodeCollab

namespace CodeCollab

/-- Helper extensionality for manager states. -/
theorem managerState_ext (a b : ManagerState)
    (h1 : a.active_connections = b.active_connections)
    (h2 : a.user_ids = b.user_ids)
    (h3 : a.last_db_write = b.last_db_write) : a = b := by
  cases a
  cases b
  simp_all

/-- A concrete manager state with two members in space "s". -/
def stA : ManagerState := ⟨[("s", [1, 2])], [(1, "u1"), (2, "u2")], []⟩

/-- C6: `leave` (`ConnectionManager.disconnect`) is idempotent: the
second invocation with the same connection and session leaves the
state unchanged and emits no effects, the combined trace of both
invocations performs `remove_user_from_space` at most once, and
neither invocation emits any socket send (so no duplicate `user_leave`
broadcast can originate from the repeated leave); both invocations are
total functions, so neither raises. -/
theorem leave_idempotent (st : ManagerState) (ws : WS) (sid : String) :
    disconnect (disconnect st ws sid).1 ws sid = ((disconnect st ws sid).1, []) ∧
    ((disconnect st ws sid).2 ++
      (disconnect (disconnect st ws sid).1 ws sid).2).countP isRemoveEff ≤ 1 ∧
    ((disconnect st ws sid).2 ++
      (disconnect (disconnect st ws sid).1 ws sid).2).countP isSendEff = 0 := by
  have hidem := disconnect_idem st ws sid
  refine ⟨hidem, ?_, ?_⟩
  · rw [List.countP_append, hidem]
    simpa using disconnect_remove_count st ws sid
  · rw [List.countP_append, hidem]
    simpa using disconnect_send_count st ws sid

/-- C7: a channel opened against a session id absent from the durable
store is closed immediately with the distinguishing non-1000 code
4004; the manager state is untouched (so the connection appears in no
member set) and no durable-store call is made. -/
theorem reject_nonexistent_session (st : ManagerState) (fails : WS → Bool)
    (sid : String) (ws : WS) (uid : String) :
    websocket_join st fails none sid ws uid = (st, [Effect.close ws 4004]) ∧
    (∀ s, members (websocket_join st fails none sid ws uid).1 s = members st s) ∧
    (websocket_join st fails none sid ws uid).2.countP isDbEff = 0 ∧
    (4004 : Nat) ≠ 1000 := by
  refine ⟨rfl, fun s => rfl, ?_, by decide⟩
  simp [websocket_join, isDbEff]

end CodeCollab

namespace CodeCollab

/-- The everywhere-successful send oracle. -/
def noFail : WS → Bool := fun _ => false

/-- C3 counterexample: in the two-member state `stA`, connection 1
leaving through the error path (`except Exception`, which is how the
code surfaces send errors and malformed-undecodable input) performs
the registry `leave` (the durable remove and the removal from the
member set) but emits no send at all — in particular no `user_leave`
broadcast reaches the remaining member 2, contradicting the claim that
every transport-level disconnect triggers both. -/
theorem error_leave_no_broadcast_counterexample :
    members stA "s" = [1, 2] ∧
    (handle_ws_error stA "s" 1).2 = [Effect.remove_user_from_space "s" "u1"] ∧
    (handle_ws_error stA "s" 1).2.countP isSendEff = 0 ∧
    members (handle_ws_error stA "s" 1).1 "s" = [2] := by
  refine ⟨by decide, by decide, by decide, by decide⟩

/-- C3 amended: a graceful close (`WebSocketDisconnect`) triggers the
registry `leave` and a `user_leave` broadcast carrying the refreshed
active count to every remaining reachable member, while the error path
(`except Exception`, covering send errors and malformed input)
triggers `leave` only, with no broadcast; re-running `leave` for the
same connection is a no-op, so a second near-simultaneous trigger is
deduplicated. -/
theorem disconnect_transition_behavior (st : ManagerState)
    (fails : WS → Bool) (sid : String) (ws : WS) (uid : String) :
    (∀ m ∈ members (disconnect st ws sid).1 sid, fails m = false →
      Effect.send m (Message.user_leave uid
          (get_active_users (disconnect st ws sid).1 sid)) ∈
        (handle_ws_disconnect st fails sid ws uid).2) ∧
    handle_ws_error st sid ws = disconnect st ws sid ∧
    (∀ e ∈ (handle_ws_error st sid ws).2, isSendEff e = false) ∧
    disconnect (disconnect st ws sid).1 ws sid = ((disconnect st ws sid).1, []) := by
  refine ⟨?_, rfl, disconnect_effects_no_send st ws sid, disconnect_idem st ws sid⟩
  intro m hm hf
  simp only [handle_ws_disconnect, List.mem_append]
  right
  exact broadcast_send_mem (disconnect st ws sid).1 fails sid _ none m hm
    (by simp) hf

/-- Witness for the amended C3 theorem at a concrete input: after
connection 1 of `stA` disconnects gracefully, member 2 receives
`user_leave` with the refreshed count 1. -/
theorem disconnect_transition_behavior_witness :
    Effect.send 2 (Message.user_leave "u1" 1) ∈
      (handle_ws_disconnect stA noFail "s" 1 "u1").2 :=
  (disconnect_transition_behavior stA noFail "s" 1 "u1").1 2 (by decide) rfl

/-- C4: while broadcasting to a session, a send failure on one
connection does not abort delivery to any other reachable member and
never surfaces outside the call (the model is a total function); the
failed connection is removed from the session through the `disconnect`
path (its member-set entry disappears and its durable
`remove_user_from_space` call is issued), and all removal effects come
after every delivery effect in the trace, never interleaved with the
iteration. -/
theorem broadcast_failure_isolation (st : ManagerState) (fails : WS → Bool)
    (sid : String) (msg : Message) (ex : Option WS) (m : WS)
    (hm : m ∈ members st sid) (hex : some m ≠ ex) :
    (fails m = false → Effect.send m msg ∈ (broadcast st fails sid msg ex).2) ∧
    (fails m = true → m ∉ members (broadcast st fails sid msg ex).1 sid ∧
      ∀ u, alookup st.user_ids m = some u →
        Effect.remove_user_from_space sid u ∈ (broadcast st fails sid msg ex).2) ∧
    (broadcast st fails sid msg ex).2 =
      ((broadcast st fails sid msg ex).2.filter isSendEff) ++
      ((broadcast st fails sid msg ex).2.filter isRemoveEff) := by
  refine ⟨fun hf => broadcast_send_mem st fails sid msg ex m hm hex hf, ?_, ?_⟩
  · intro hf
    unfold broadcast
    cases h : alookup st.active_connections sid with
    | none =>
      rw [members, h] at hm
      simp at hm
    | some conns =>
      rw [members, h] at hm
      simp only [Option.getD] at hm
      have hmdead : m ∈ (conns.filter (fun c => ! decide (some c = ex))).filter
          (fun c => fails c) :=
        List.mem_filter.mpr ⟨List.mem_filter.mpr ⟨hm, by simpa using hex⟩, hf⟩
      constructor
      · exact not_mem_members_cleanup sid _ st m hmdead
      · intro u hu
        simp only [List.mem_append]
        right
        exact cleanup_dead_remove_effect sid _ st m hmdead u hu
  · unfold broadcast
    cases h : alookup st.active_connections sid with
    | none => rfl
    | some conns =>
      simp only
      set dl := ((conns.filter (fun c => ! decide (some c = ex))).filter
        (fun c => ! fails c)).map (fun c => Effect.send c msg) with hdl
      set dd := (cleanup_dead st sid
        ((conns.filter (fun c => ! decide (some c = ex))).filter
          (fun c => fails c))).2 with hdd
      have h1 : dl.filter isSendEff = dl := by
        refine List.filter_eq_self.mpr (fun e he => ?_)
        rw [hdl] at he
        obtain ⟨c, _, rfl⟩ := List.mem_map.mp he
        rfl
      have h2 : dd.filter isSendEff = [] := by
        refine List.filter_eq_nil_iff.mpr (fun e he => ?_)
        rw [hdd] at he
        obtain ⟨u, rfl⟩ := cleanup_dead_effects sid _ st e he
        simp [isSendEff]
      have h3 : dl.filter isRemoveEff = [] := by
        refine List.filter_eq_nil_iff.mpr (fun e he => ?_)
        rw [hdl] at he
        obtain ⟨c, _, rfl⟩ := List.mem_map.mp he
        simp [isRemoveEff]
      have h4 : dd.filter isRemoveEff = dd := by
        refine List.filter_eq_self.mpr (fun e he => ?_)
        rw [hdd] at he
        obtain ⟨u, rfl⟩ := cleanup_dead_effects sid _ st e he
        rfl
      rw [List.filter_append, List.filter_append, h1, h2, h3, h4]
      simp

/-- Witness for C4 at a concrete input: in a three-member session
where sending to connection 2 raises, member 3 still receives the
message, and the failed member 2 is removed from the member set. -/
theorem broadcast_failure_isolation_witness :
    Effect.send 3 (Message.code_change "x" "u1") ∈
      (broadcast ⟨[("s", [1, 2, 3])], [(1, "u1"), (2, "u2"), (3, "u3")], []⟩
        (fun c => decide (c = 2)) "s" (Message.code_change "x" "u1") (some 1)).2 ∧
    2 ∉ members (broadcast ⟨[("s", [1, 2, 3])], [(1, "u1"), (2, "u2"), (3, "u3")], []⟩
        (fun c => decide (c = 2)) "s" (Message.code_change "x" "u1") (some 1)).1 "s" :=
  ⟨(broadcast_failure_isolation _ _ "s" _ (some 1) 3 (by decide) (by decide)).1 rfl,
   ((broadcast_failure_isolation _ _ "s" _ (some 1) 2 (by decide) (by decide)).2.1 rfl).1⟩

end CodeCollab

namespace CodeCollab

/-- C8: a `language_change` message performs the durable
`update_space_language` call first, unconditionally — for every state
of the throttle table and every current time — and leaves the
last-write throttle state untouched. -/
theorem language_change_unthrottled (st : ManagerState) (fails : WS → Bool)
    (sid : String) (ws : WS) (uid : String) (now : ℚ) (msg : Inbound)
    (h : msg.msg_type = some "language_change") :
    (handle_message st fails sid ws uid now msg).2.head? =
      some (Effect.update_space_language sid (msg.language.getD "python")) ∧
    (handle_message st fails sid ws uid now msg).1.last_db_write =
      st.last_db_write := by
  have hne : ¬ msg.msg_type = some "code_change" := by
    rw [h]
    simp
  rw [handle_message, if_neg hne, if_pos h]
  exact ⟨rfl, broadcast_last_db_write st fails sid _ (some ws)⟩

/-- Witness for C8 at a concrete input: a `language_change` to "go" in
state `stA` issues the durable language update first even at time 0
with an empty throttle table. -/
theorem language_change_unthrottled_witness :
    (handle_message stA noFail "s" 1 "u1" 0
      ⟨some "language_change", none, some "go", none⟩).2.head? =
      some (Effect.update_space_language "s" "go") ∧
    (handle_message stA noFail "s" 1 "u1" 0
      ⟨some "language_change", none, some "go", none⟩).1.last_db_write =
      stA.last_db_write :=
  language_change_unthrottled stA noFail "s" 1 "u1" 0 _ rfl

/-- Every effect emitted by the receive loop for an inbound message is
never a send addressed to the originating connection. -/
theorem handle_message_no_echo (st : ManagerState) (fails : WS → Bool)
    (sid : String) (ws : WS) (uid : String) (now : ℚ) (msg : Inbound) :
    ∀ e ∈ (handle_message st fails sid ws uid now msg).2, ∀ mm,
      e ≠ Effect.send ws mm := by
  intro e he mm heq
  subst heq
  simp only [handle_message] at he
  split_ifs at he with h1 ht h2 h3
  · simp only [List.mem_append, List.mem_singleton] at he
    rcases he with he | he
    · exact Effect.noConfusion he
    · exact (broadcast_send_ne_exclude _ fails sid _ (some ws) _ he ws _ rfl).1 rfl
  · simp only [List.nil_append] at he
    exact (broadcast_send_ne_exclude _ fails sid _ (some ws) _ he ws _ rfl).1 rfl
  · simp only [List.mem_cons] at he
    rcases he with he | he
    · exact Effect.noConfusion he
    · exact (broadcast_send_ne_exclude _ fails sid _ (some ws) _ he ws _ rfl).1 rfl
  · exact (broadcast_send_ne_exclude _ fails sid _ (some ws) _ he ws _ rfl).1 rfl
  · simp at he

/-- C2: every non-`init` outbound message — `code_change`,
`language_change`, `cursor_move` relayed by the receive loop, and
`user_join` emitted on admission — is delivered to every other
reachable member of the session and never delivered back to the
originator; the only send the admission path addresses to the joiner
itself is the `init` snapshot. -/
theorem broadcast_no_echo (st : ManagerState) (fails : WS → Bool)
    (sid : String) (ws : WS) (uid : String) (now : ℚ) (msg : Inbound)
    (sp : Space) (m : WS)
    (hm : m ∈ members st sid) (hmw : m ≠ ws) (hf : fails m = false) :
    (msg.msg_type = some "code_change" →
      Effect.send m (Message.code_change (msg.code.getD "") uid) ∈
        (handle_message st fails sid ws uid now msg).2) ∧
    (msg.msg_type = some "language_change" →
      Effect.send m (Message.language_change (msg.language.getD "python") uid) ∈
        (handle_message st fails sid ws uid now msg).2) ∧
    (msg.msg_type = some "cursor_move" →
      Effect.send m (Message.cursor_move uid (msg.cursor_position.getD "\x7b\x7d")) ∈
        (handle_message st fails sid ws uid now msg).2) ∧
    (∀ e ∈ (handle_message st fails sid ws uid now msg).2, ∀ mm,
      e ≠ Effect.send ws mm) ∧
    (Effect.send m (Message.user_join uid
        (get_active_users (connect st ws sid uid).1 sid)) ∈
      (websocket_join st fails (some sp) sid ws uid).2) ∧
    (∀ e ∈ (websocket_join st fails (some sp) sid ws uid).2, ∀ mm,
      e = Effect.send ws mm →
      mm = Message.init sid uid sp.code sp.language
        (get_active_users (connect st ws sid uid).1 sid)) := by
  have hex : some m ≠ some ws := fun hh => hmw (Option.some.inj hh)
  refine ⟨?_, ?_, ?_, handle_message_no_echo st fails sid ws uid now msg, ?_, ?_⟩
  · intro h1
    rw [handle_message, if_pos h1]
    simp only [List.mem_append]
    right
    by_cases ht : (0.5 : ℚ) ≤ now - (alookup st.last_db_write sid).getD 0
    · rw [if_pos ht]
      exact broadcast_send_mem _ fails sid _ (some ws) m hm hex hf
    · rw [if_neg ht]
      exact broadcast_send_mem st fails sid _ (some ws) m hm hex hf
  · intro h2
    have hne : ¬ msg.msg_type = some "code_change" := by rw [h2]; simp
    rw [handle_message, if_neg hne, if_pos h2]
    simp only [List.mem_cons]
    right
    exact broadcast_send_mem st fails sid _ (some ws) m hm hex hf
  · intro h3
    have hne1 : ¬ msg.msg_type = some "code_change" := by rw [h3]; simp
    have hne2 : ¬ msg.msg_type = some "language_change" := by rw [h3]; simp
    rw [handle_message, if_neg hne1, if_neg hne2, if_pos h3]
    exact broadcast_send_mem st fails sid _ (some ws) m hm hex hf
  · simp only [websocket_join, List.append_assoc, List.mem_append]
    right; right
    exact broadcast_send_mem (connect st ws sid uid).1 fails sid _ (some ws) m
      (members_connect_of_mem st ws sid uid m hm) hex hf
  · intro e he mm heq
    subst heq
    simp only [websocket_join, connect, List.append_assoc, List.mem_append,
      List.mem_singleton, List.mem_cons, List.not_mem_nil, or_false] at he
    rcases he with he | he | he
    · exact Effect.noConfusion he
    · injection he with h1 hmm
    · exact absurd rfl
        (broadcast_send_ne_exclude _ fails sid _ (some ws) _ he ws _ rfl).1

end CodeCollab

namespace CodeCollab

/-- Witness for C2 at concrete inputs: in `stA`, a `code_change` from
connection 1 is delivered to connection 2, and when a fresh connection
3 is admitted, connection 2 receives the `user_join` announcement. -/
theorem broadcast_no_echo_witness :
    Effect.send 2 (Message.code_change "x=1" "u1") ∈
      (handle_message stA noFail "s" 1 "u1" 10
        ⟨some "code_change", some "x=1", none, none⟩).2 ∧
    Effect.send 2 (Message.user_join "u3" 3) ∈
      (websocket_join stA noFail (some ⟨"", "python"⟩) "s" 3 "u3").2 :=
  ⟨(broadcast_no_echo stA noFail "s" 1 "u1" 10
      ⟨some "code_change", some "x=1", none, none⟩ ⟨"", "python"⟩ 2
      (by decide) (by decide) rfl).1 rfl,
   (broadcast_no_echo stA noFail "s" 3 "u3" 0
      ⟨none, none, none, none⟩ ⟨"", "python"⟩ 2
      (by decide) (by decide) rfl).2.2.2.2.1⟩

/-- Messages other than `init` never produce an `init` send through
`broadcast`. -/
theorem broadcast_no_init_send (st : ManagerState) (fails : WS → Bool)
    (sid : String) (ex : Option WS) (uid : String) (n : Nat) :
    ∀ e ∈ (broadcast st fails sid (Message.user_join uid n) ex).2,
      isInitSendEff e = false := by
  intro e he
  rcases broadcast_effects_shape st fails sid _ ex e he with ⟨c, _, _, rfl⟩ | ⟨u, rfl⟩
  · rfl
  · rfl

/-- C9: admitting a fresh connection to an existing space sends
exactly one `init` message; it goes to the joiner only and carries the
stored code, the stored language, and the active-count including the
joiner itself (one more than the previous member count); every other
reachable member receives `user_join` with that same refreshed count. -/
theorem init_snapshot (st : ManagerState) (fails : WS → Bool) (sid : String)
    (ws : WS) (uid : String) (sp : Space) (hws : ws ∉ members st sid) :
    get_active_users (connect st ws sid uid).1 sid =
      (members st sid).length + 1 ∧
    (websocket_join st fails (some sp) sid ws uid).2.countP isInitSendEff = 1 ∧
    (∀ e ∈ (websocket_join st fails (some sp) sid ws uid).2,
      isInitSendEff e = true →
      e = Effect.send ws (Message.init sid uid sp.code sp.language
        ((members st sid).length + 1))) ∧
    (∀ m ∈ members st sid, m ≠ ws → fails m = false →
      Effect.send m (Message.user_join uid ((members st sid).length + 1)) ∈
        (websocket_join st fails (some sp) sid ws uid).2) := by
  have hfresh := get_active_users_connect_fresh st ws sid uid hws
  refine ⟨hfresh, ?_, ?_, ?_⟩
  · simp only [websocket_join]
    rw [List.countP_append, List.countP_append]
    have h0 : (connect st ws sid uid).2.countP isInitSendEff = 0 := by
      simp [connect, isInitSendEff]
    have h1 : ([Effect.send ws (Message.init sid uid sp.code sp.language
        (get_active_users (connect st ws sid uid).1 sid))] : List Effect).countP
        isInitSendEff = 1 := by simp [isInitSendEff]
    have h2 : (broadcast (connect st ws sid uid).1 fails sid
        (Message.user_join uid (get_active_users (connect st ws sid uid).1 sid))
        (some ws)).2.countP isInitSendEff = 0 :=
      List.countP_eq_zero.mpr (fun e he => by
        rw [broadcast_no_init_send _ fails sid (some ws) uid _ e he]
        simp)
    rw [h0, h1, h2]
  · intro e he hinit
    simp only [websocket_join, List.append_assoc, List.mem_append,
      List.mem_singleton] at he
    rcases he with he | he | he
    · rw [show (connect st ws sid uid).2 =
        [Effect.add_user_to_space sid uid] from rfl] at he
      simp only [List.mem_singleton] at he
      rw [he] at hinit
      simp [isInitSendEff] at hinit
    · rw [he]
      rw [show get_active_users (connect st ws sid uid).1 sid =
        (members st sid).length + 1 from hfresh]
    · rw [broadcast_no_init_send _ fails sid (some ws) uid _ e he] at hinit
      cases hinit
  · intro m hm hmw hf
    have hex : some m ≠ some ws := fun hh => hmw (Option.some.inj hh)
    simp only [websocket_join, List.append_assoc, List.mem_append]
    right; right
    rw [show (members st sid).length + 1 =
      get_active_users (connect st ws sid uid).1 sid from hfresh.symm]
    exact broadcast_send_mem (connect st ws sid uid).1 fails sid _ (some ws) m
      (members_connect_of_mem st ws sid uid m hm) hex hf

/-- Witness for C9 at a concrete input: a second connection joining
space "s" of a one-member state receives `init` with code "x",
language "python" and activeUsers 2, and the first member receives
`user_join` with count 2. -/
theorem init_snapshot_witness :
    get_active_users (connect ⟨[("s", [1])], [(1, "u1")], []⟩ 2 "s" "u2").1 "s" = 2 ∧
    (websocket_join ⟨[("s", [1])], [(1, "u1")], []⟩ noFail
      (some ⟨"x", "python"⟩) "s" 2 "u2").2.countP isInitSendEff = 1 ∧
    Effect.send 1 (Message.user_join "u2" 2) ∈
      (websocket_join ⟨[("s", [1])], [(1, "u1")], []⟩ noFail
        (some ⟨"x", "python"⟩) "s" 2 "u2").2 :=
  ⟨(init_snapshot ⟨[("s", [1])], [(1, "u1")], []⟩ noFail "s" 2 "u2"
      ⟨"x", "python"⟩ (by decide)).1,
   (init_snapshot ⟨[("s", [1])], [(1, "u1")], []⟩ noFail "s" 2 "u2"
      ⟨"x", "python"⟩ (by decide)).2.1,
   (init_snapshot ⟨[("s", [1])], [(1, "u1")], []⟩ noFail "s" 2 "u2"
      ⟨"x", "python"⟩ (by decide)).2.2.2 1 (by decide) (by decide) rfl⟩

end CodeCollab

namespace CodeCollab

/-- C10: a `code_change` message with no "code" key is treated as the
empty string: peers receive `code_change` with code "" and, when the
coalescing window permits, `update_space_code` is called with "". -/
theorem missing_code_defaults_empty (st : ManagerState) (fails : WS → Bool)
    (sid : String) (ws : WS) (uid : String) (now : ℚ) (msg : Inbound)
    (h1 : msg.msg_type = some "code_change") (h2 : msg.code = none) :
    ((0.5 : ℚ) ≤ now - (alookup st.last_db_write sid).getD 0 →
      Effect.update_space_code sid "" ∈
        (handle_message st fails sid ws uid now msg).2) ∧
    (∀ m ∈ members st sid, m ≠ ws → fails m = false →
      Effect.send m (Message.code_change "" uid) ∈
        (handle_message st fails sid ws uid now msg).2) := by
  constructor
  · intro ht
    rw [handle_message, if_pos h1]
    simp only [List.mem_append]
    left
    rw [if_pos ht]
    simp [h2]
  · intro m hm hmw hf
    have hex : some m ≠ some ws := fun hh => hmw (Option.some.inj hh)
    rw [handle_message, if_pos h1]
    simp only [List.mem_append]
    right
    have hcc : Message.code_change "" uid =
        Message.code_change (msg.code.getD "") uid := by rw [h2]; rfl
    rw [hcc]
    by_cases ht : (0.5 : ℚ) ≤ now - (alookup st.last_db_write sid).getD 0
    · rw [if_pos ht]
      exact broadcast_send_mem _ fails sid _ (some ws) m hm hex hf
    · rw [if_neg ht]
      exact broadcast_send_mem st fails sid _ (some ws) m hm hex hf

/-- Witness for C10 at a concrete input: in `stA`, a `code_change`
without a "code" key at time 10 durably writes "" and delivers
`code_change{code:""}` to member 2. -/
theorem missing_code_defaults_empty_witness :
    Effect.update_space_code "s" "" ∈
      (handle_message stA noFail "s" 1 "u1" 10
        ⟨some "code_change", none, none, none⟩).2 ∧
    Effect.send 2 (Message.code_change "" "u1") ∈
      (handle_message stA noFail "s" 1 "u1" 10
        ⟨some "code_change", none, none, none⟩).2 :=
  ⟨(missing_code_defaults_empty stA noFail "s" 1 "u1" 10
      ⟨some "code_change", none, none, none⟩ rfl rfl).1 (by norm_num [stA, alookup]),
   (missing_code_defaults_empty stA noFail "s" 1 "u1" 10
      ⟨some "code_change", none, none, none⟩ rfl rfl).2 2
      (by decide) (by decide) rfl⟩

/-- A run of the program: one connection joins space "s", sends one
`code_change` at time 10 (performing a durable write), and
disconnects, leaving the session empty. -/
def c5run : ManagerState :=
  (handle_ws_disconnect
    (handle_message
      (websocket_join initialState noFail (some ⟨"", "python"⟩) "s" 1 "u1").1
      noFail "s" 1 "u1" 10 ⟨some "code_change", some "x", none, none⟩).1
    noFail "s" 1 "u1").1

/-- C5 counterexample: after the last member of space "s" leaves, the
member-set entry is gone, yet the registry still retains per-session
memory for the empty session — the `last_db_write` throttle entry for
"s" survives the last leave, contradicting the claim that no
per-session memory is retained in the registry for empty sessions. -/
theorem registry_retention_counterexample :
    Reachable c5run ∧
    members c5run "s" = [] ∧
    alookup c5run.active_connections "s" = none ∧
    alookup c5run.last_db_write "s" = some 10 := by
  have hq : ((0.5 : ℚ) ≤ 10 - 0) := by norm_num
  have hq2 : ((0.5 : ℚ) ≤ 10) := by norm_num
  refine ⟨?_, ?_, ?_, ?_⟩
  · exact Reachable.ws_disconnect _ _ _ _ _
      (Reachable.message _ _ _ _ _ _ _
        (Reachable.joined _ _ _ _ _ _ Reachable.base))
  all_goals
    simp [c5run, handle_ws_disconnect, handle_message, websocket_join,
      connect, broadcast, disconnect, cleanup_dead, members, alookup, aset,
      akeyremove, initialState, get_active_users, noFail, hq, hq2]

/-- C5 amended: in every reachable manager state, a member-set entry
for a session exists in `active_connections` iff at least one
connection is attached to it; the entry is created on first join and
removed on last leave.  However, the registry's per-session
`last_db_write` timestamp is never discarded by `leave`, so that
per-session memory is retained for empty sessions. -/
theorem registry_entry_lifecycle (st : ManagerState) (h : Reachable st)
    (sid : String) :
    ((alookup st.active_connections sid).isSome = true ↔
      ∃ c, c ∈ members st sid) ∧
    (∀ ws uid,
      (alookup (connect st ws sid uid).1.active_connections sid).isSome = true) ∧
    (∀ ws, members st sid = [ws] →
      alookup (disconnect st ws sid).1.active_connections sid = none) ∧
    (∀ ws, (disconnect st ws sid).1.last_db_write = st.last_db_write) := by
  refine ⟨⟨?_, ?_⟩, ?_, ?_, fun ws => disconnect_last_db_write st ws sid⟩
  · intro hsome
    obtain ⟨conns, hconns⟩ := Option.isSome_iff_exists.mp hsome
    have hne := reachable_registryInv st h sid conns hconns
    obtain ⟨c, hc⟩ := List.exists_mem_of_ne_nil conns hne
    refine ⟨c, ?_⟩
    rw [members, hconns]
    exact hc
  · rintro ⟨c, hc⟩
    cases hlk : alookup st.active_connections sid with
    | none =>
      rw [members, hlk] at hc
      simp at hc
    | some conns => simp
  · intro ws uid
    simp only [connect]
    rw [alookup_aset_self]
    rfl
  · intro ws hm
    have hlk : alookup st.active_connections sid = some [ws] := by
      cases hlk2 : alookup st.active_connections sid with
      | none =>
        rw [members, hlk2] at hm
        simp at hm
      | some conns =>
        rw [members, hlk2] at hm
        simp only [Option.getD] at hm
        rw [hm]
    rw [disconnect_active_connections, hlk]
    simp only
    have hemp : (([ws] : List WS).filter (fun c => ! decide (c = ws))).isEmpty =
        true := by simp
    rw [if_pos hemp]
    exact alookup_akeyremove_self st.active_connections sid

/-- Witness for the amended C5 theorem at concrete inputs: in the
reachable end state of `c5run` the entry/nonempty equivalence holds
for "s" (both sides false), and after the sole member of a one-member
reachable state leaves, the member-set entry for "s" is gone. -/
theorem registry_entry_lifecycle_witness :
    ((alookup c5run.active_connections "s").isSome = true ↔
      ∃ c, c ∈ members c5run "s") ∧
    alookup (disconnect
      (websocket_join initialState noFail (some ⟨"", "python"⟩) "s" 1 "u1").1
      1 "s").1.active_connections "s" = none :=
  ⟨(registry_entry_lifecycle c5run
      (Reachable.ws_disconnect _ _ _ _ _
        (Reachable.message _ _ _ _ _ _ _
          (Reachable.joined _ _ _ _ _ _ Reachable.base))) "s").1,
   (registry_entry_lifecycle
      (websocket_join initialState noFail (some ⟨"", "python"⟩) "s" 1 "u1").1
      (Reachable.joined _ _ _ _ _ _ Reachable.base) "s").2.2.1 1 (by decide)⟩

end CodeCollab

namespace CodeCollab

/-! Counting helpers for the coalescing argument. -/

theorem countWrites_append (a b : List Effect) :
    countWrites (a ++ b) = countWrites a + countWrites b :=
  List.countP_append _ _ _

theorem sendsTo_append (a b : List Effect) (m : WS) :
    sendsTo (a ++ b) m = sendsTo a m + sendsTo b m :=
  List.countP_append _ _ _

theorem countWrites_map_send (l : List WS) (msg : Message) :
    countWrites (l.map (fun c => Effect.send c msg)) = 0 := by
  unfold countWrites
  rw [List.countP_map]
  exact List.countP_eq_zero.mpr (fun a _ => by simp)

theorem countWrites_broadcast_no_fail (st : ManagerState) (fails : WS → Bool)
    (sid : String) (msg : Message) (ex : Option WS)
    (hf : ∀ c, fails c = false) :
    countWrites (broadcast st fails sid msg ex).2 = 0 := by
  rw [broadcast_effects_no_fail st fails sid msg ex hf]
  exact countWrites_map_send _ _

/-- One `code_change` iteration under reliable sends: the member sets
and user table are untouched, the throttle table and write count
follow the threshold test, and each other member receives exactly one
send. -/
theorem cc_step (st : ManagerState) (sid : String) (ws : WS) (uid : String)
    (now : ℚ) (msg : Inbound) (h : msg.msg_type = some "code_change") :
    (handle_message st noFail sid ws uid now msg).1.active_connections =
      st.active_connections ∧
    (handle_message st noFail sid ws uid now msg).1.user_ids = st.user_ids ∧
    (handle_message st noFail sid ws uid now msg).1.last_db_write =
      (if (0.5 : ℚ) ≤ now - (alookup st.last_db_write sid).getD 0 then
        aset st.last_db_write sid now else st.last_db_write) ∧
    countWrites (handle_message st noFail sid ws uid now msg).2 =
      (if (0.5 : ℚ) ≤ now - (alookup st.last_db_write sid).getD 0 then 1 else 0) ∧
    (∀ m, (members st sid).Nodup → m ∈ members st sid → m ≠ ws →
      sendsTo (handle_message st noFail sid ws uid now msg).2 m = 1) := by
  have hnf : ∀ c, noFail c = false := fun c => rfl
  by_cases ht : (0.5 : ℚ) ≤ now - (alookup st.last_db_write sid).getD 0
  · rw [handle_message, if_pos h]
    simp only [if_pos ht]
    refine ⟨?_, ?_, ?_, ?_, ?_⟩
    · rw [broadcast_state_no_fail _ noFail sid _ _ hnf]
    · rw [broadcast_state_no_fail _ noFail sid _ _ hnf]
    · rw [broadcast_state_no_fail _ noFail sid _ _ hnf]
    · rw [countWrites_append, countWrites_broadcast_no_fail _ noFail sid _ _ hnf]
      rfl
    · intro m hn hm hmw
      rw [sendsTo_append]
      have hb := sendsTo_broadcast_no_fail
        ⟨st.active_connections, st.user_ids, aset st.last_db_write sid now⟩
        noFail sid (Message.code_change (msg.code.getD "") uid) m ws hnf hn hm hmw
      rw [hb]
      rfl
  · rw [handle_message, if_pos h]
    simp only [if_neg ht]
    refine ⟨?_, ?_, ?_, ?_, ?_⟩
    · rw [broadcast_state_no_fail _ noFail sid _ _ hnf]
    · rw [broadcast_state_no_fail _ noFail sid _ _ hnf]
    · rw [broadcast_state_no_fail _ noFail sid _ _ hnf]
    · rw [countWrites_append, countWrites_broadcast_no_fail _ noFail sid _ _ hnf]
      rfl
    · intro m hn hm hmw
      rw [sendsTo_append]
      rw [sendsTo_broadcast_no_fail st noFail sid _ m ws hnf hn hm hmw]
      rfl

end CodeCollab

namespace CodeCollab

/-- A run of `code_change` messages whose times stay inside a window
that starts no earlier than the recorded last write performs no
further durable write: the state is unchanged and each other member
still receives every broadcast. -/
theorem run_cc_quiet (sid : String) (ws : WS) (uid : String) (w : ℚ)
    (msgs : List (ℚ × Inbound)) :
    ∀ st : ManagerState,
      (∀ p ∈ msgs, p.2.msg_type = some "code_change" ∧
        w ≤ p.1 ∧ p.1 < w + 0.5) →
      w ≤ (alookup st.last_db_write sid).getD 0 →
      (run_messages st noFail sid ws uid msgs).1 = st ∧
      countWrites (run_messages st noFail sid ws uid msgs).2 = 0 ∧
      (∀ m, (members st sid).Nodup → m ∈ members st sid → m ≠ ws →
        sendsTo (run_messages st noFail sid ws uid msgs).2 m = msgs.length) := by
  induction msgs with
  | nil => exact fun st _ _ => ⟨rfl, rfl, fun m _ _ _ => rfl⟩
  | cons p rest ih =>
    intro st hmsgs hw
    obtain ⟨t, m0⟩ := p
    obtain ⟨hty, hwt, htw⟩ := hmsgs (t, m0) (List.mem_cons_self _ _)
    have hmsgs' : ∀ q ∈ rest, q.2.msg_type = some "code_change" ∧
        w ≤ q.1 ∧ q.1 < w + 0.5 :=
      fun q hq => hmsgs q (List.mem_cons_of_mem _ hq)
    have hnot : ¬ (0.5 : ℚ) ≤ t - (alookup st.last_db_write sid).getD 0 := by
      intro hcontra
      linarith
    have hstep := cc_step st sid ws uid t m0 hty
    rw [if_neg hnot, if_neg hnot] at hstep
    have hstate : (handle_message st noFail sid ws uid t m0).1 = st :=
      managerState_ext _ _ hstep.1 hstep.2.1 hstep.2.2.1
    have hrest := ih st hmsgs' hw
    simp only [run_messages]
    rw [hstate]
    refine ⟨hrest.1, ?_, ?_⟩
    · rw [countWrites_append, hstep.2.2.2.1, hrest.2.1]
    · intro m hn hm hmw
      rw [sendsTo_append, hstep.2.2.2.2 m hn hm hmw, hrest.2.2 m hn hm hmw]
      simp [Nat.add_comm]

/-- Any run of `code_change` messages confined to a half-open window
of the threshold length performs at most one durable write while every
other member still receives every broadcast. -/
theorem run_cc_bounded (sid : String) (ws : WS) (uid : String) (w : ℚ)
    (msgs : List (ℚ × Inbound)) :
    ∀ st : ManagerState,
      (∀ p ∈ msgs, p.2.msg_type = some "code_change" ∧
        w ≤ p.1 ∧ p.1 < w + 0.5) →
      countWrites (run_messages st noFail sid ws uid msgs).2 ≤ 1 ∧
      (∀ m, (members st sid).Nodup → m ∈ members st sid → m ≠ ws →
        sendsTo (run_messages st noFail sid ws uid msgs).2 m = msgs.length) := by
  induction msgs with
  | nil => exact fun st _ => ⟨by simp [run_messages, countWrites], fun m _ _ _ => rfl⟩
  | cons p rest ih =>
    intro st hmsgs
    obtain ⟨t, m0⟩ := p
    obtain ⟨hty, hwt, htw⟩ := hmsgs (t, m0) (List.mem_cons_self _ _)
    have hmsgs' : ∀ q ∈ rest, q.2.msg_type = some "code_change" ∧
        w ≤ q.1 ∧ q.1 < w + 0.5 :=
      fun q hq => hmsgs q (List.mem_cons_of_mem _ hq)
    have hstep := cc_step st sid ws uid t m0 hty
    by_cases ht : (0.5 : ℚ) ≤ t - (alookup st.last_db_write sid).getD 0
    · rw [if_pos ht, if_pos ht] at hstep
      have hlast : (alookup
          (handle_message st noFail sid ws uid t m0).1.last_db_write sid).getD 0 = t := by
        rw [hstep.2.2.1, alookup_aset_self]
        rfl
      have hquiet := run_cc_quiet sid ws uid w rest
        (handle_message st noFail sid ws uid t m0).1 hmsgs'
        (by rw [hlast]; exact hwt)
      have hmem : members (handle_message st noFail sid ws uid t m0).1 sid =
          members st sid := by
        unfold members
        rw [hstep.1]
      constructor
      · simp only [run_messages]
        rw [countWrites_append, hstep.2.2.2.1, hquiet.2.1]
      · intro m hn hm hmw
        simp only [run_messages]
        rw [sendsTo_append, hstep.2.2.2.2 m hn hm hmw,
          hquiet.2.2 m (by rw [hmem]; exact hn) (by rw [hmem]; exact hm) hmw]
        simp [Nat.add_comm]
    · rw [if_neg ht, if_neg ht] at hstep
      have hstate : (handle_message st noFail sid ws uid t m0).1 = st :=
        managerState_ext _ _ hstep.1 hstep.2.1 hstep.2.2.1
      have hrest := ih st hmsgs'
      constructor
      · simp only [run_messages]
        rw [countWrites_append, hstep.2.2.2.1, hstate]
        simpa using hrest.1
      · intro m hn hm hmw
        simp only [run_messages]
        rw [sendsTo_append, hstep.2.2.2.2 m hn hm hmw, hstate,
          hrest.2 m hn hm hmw]
        simp [Nat.add_comm]

end CodeCollab

namespace CodeCollab

/-- C1: a `code_change` triggers the durable `update_space_code` call
iff the current time minus the session's recorded last-write time
reaches the 0.5 s threshold, in which case the current time is
recorded as the new last-write time; and for any N `code_change`
messages whose times fall within a window shorter than the threshold,
at most one durable write occurs while each other member receives
exactly N broadcasts — the broadcast path is never gated by the
throttle. -/
theorem write_coalescing_throttle :
    (∀ (st : ManagerState) (fails : WS → Bool) (sid : String) (ws : WS)
        (uid : String) (now : ℚ) (msg : Inbound),
      msg.msg_type = some "code_change" →
      ((Effect.update_space_code sid (msg.code.getD "") ∈
          (handle_message st fails sid ws uid now msg).2 ↔
        (0.5 : ℚ) ≤ now - (alookup st.last_db_write sid).getD 0) ∧
       ((0.5 : ℚ) ≤ now - (alookup st.last_db_write sid).getD 0 →
        alookup (handle_message st fails sid ws uid now msg).1.last_db_write
          sid = some now))) ∧
    (∀ (st : ManagerState) (sid : String) (ws : WS) (uid : String) (w : ℚ)
        (msgs : List (ℚ × Inbound)) (m : WS),
      (∀ p ∈ msgs, p.2.msg_type = some "code_change" ∧
        w ≤ p.1 ∧ p.1 < w + 0.5) →
      (members st sid).Nodup → m ∈ members st sid → m ≠ ws →
      countWrites (run_messages st noFail sid ws uid msgs).2 ≤ 1 ∧
      sendsTo (run_messages st noFail sid ws uid msgs).2 m = msgs.length) := by
  constructor
  · intro st fails sid ws uid now msg h
    refine ⟨⟨?_, ?_⟩, ?_⟩
    · intro hmem
      by_contra hnot
      rw [handle_message, if_pos h] at hmem
      simp only [if_neg hnot, List.nil_append] at hmem
      rcases broadcast_effects_shape st fails sid _ (some ws) _ hmem with
        ⟨c, _, _, heq⟩ | ⟨u, heq⟩
      · exact Effect.noConfusion heq
      · exact Effect.noConfusion heq
    · intro ht
      rw [handle_message, if_pos h]
      simp only [if_pos ht, List.mem_append]
      left
      simp
    · intro ht
      rw [handle_message, if_pos h]
      simp only [if_pos ht]
      rw [broadcast_last_db_write]
      exact alookup_aset_self st.last_db_write sid now
  · intro st sid ws uid w msgs m hmsgs hn hm hmw
    obtain ⟨hcount, hsends⟩ := run_cc_bounded sid ws uid w msgs st hmsgs
    exact ⟨hcount, hsends m hn hm hmw⟩

/-- Witness for C1 at concrete inputs: in `stA` (empty throttle
table), a `code_change` at time 10 performs the durable write and
records the time, and the two-message burst at times 10 and 10.2
(a window shorter than 0.5 s) performs at most one durable write while
member 2 receives exactly 2 broadcasts. -/
theorem write_coalescing_throttle_witness :
    (Effect.update_space_code "s" "x" ∈
      (handle_message stA noFail "s" 1 "u1" 10
        ⟨some "code_change", some "x", none, none⟩).2 ∧
      alookup (handle_message stA noFail "s" 1 "u1" 10
        ⟨some "code_change", some "x", none, none⟩).1.last_db_write "s" =
        some 10) ∧
    countWrites (run_messages stA noFail "s" 1 "u1"
      [(10, ⟨some "code_change", some "x", none, none⟩),
       ((51 : ℚ)/5, ⟨some "code_change", some "y", none, none⟩)]).2 ≤ 1 ∧
    sendsTo (run_messages stA noFail "s" 1 "u1"
      [(10, ⟨some "code_change", some "x", none, none⟩),
       ((51 : ℚ)/5, ⟨some "code_change", some "y", none, none⟩)]).2 2 = 2 := by
  refine ⟨?_, ?_⟩
  · have ha := write_coalescing_throttle.1 stA noFail "s" 1 "u1" 10
      ⟨some "code_change", some "x", none, none⟩ rfl
    have ht : (0.5 : ℚ) ≤ 10 - (alookup stA.last_db_write "s").getD 0 := by
      norm_num [stA, alookup]
    exact ⟨ha.1.mpr ht, ha.2 ht⟩
  · have hb := write_coalescing_throttle.2 stA "s" 1 "u1" 10
      [(10, ⟨some "code_change", some "x", none, none⟩),
       ((51 : ℚ)/5, ⟨some "code_change", some "y", none, none⟩)] 2
      ?_ (by decide) (by decide) (by decide)
    · exact hb
    · intro p hp
      simp only [List.mem_cons, List.not_mem_nil, or_false] at hp
      rcases hp with rfl | rfl
      · exact ⟨rfl, by norm_num, by norm_num⟩
      · exact ⟨rfl, by norm_num, by norm_num⟩

end CodeCollab
